import Mathlib

/-!
Verification of the configuration resolver `readConfigFile` of
`static-web-apps-cli` (`src/utils.ts`), shallowly embedded in Lean.

The embedding models:
* the POSIX behaviour of Node's `path.normalize` / `path.join` /
  `path.resolve` on character lists (`normalizeL`, `joinL`, `resolveL`);
* the fragment of parsed YAML documents the resolver navigates (`Yaml`),
  together with JavaScript property access and truthiness;
* the filesystem facts `readConfigFile` consumes (`FsState`);
* the resolver itself (`locateActionFile`, `validateDoc`, `extractWith`,
  `resolveConfig`, `readConfigFile`).
-/

set_option maxRecDepth 4000

namespace Swa

/-! ### Character-level model of Node `path.posix` -/

/-- Does a character list begin with the path separator? -/
def startsWithSlash (p : List Char) : Bool :=
  match p with
  | [] => false
  | c :: _ => c == '/'

/-- Does a character list end with the path separator? -/
def endsWithSlash (p : List Char) : Bool :=
  startsWithSlash p.reverse

/-- JavaScript `String.prototype.split("/")` on character lists: the
segments between separators, keeping empty segments. -/
def splitSlash : List Char → List (List Char)
  | [] => [[]]
  | c :: rest =>
    if c = '/' then [] :: splitSlash rest
    else
      match splitSlash rest with
      | [] => [[c]]
      | s :: ss => (c :: s) :: ss

/-- Concatenate segments with the separator between them (the inverse of
`splitSlash` on separator-free segments). -/
def joinSegs : List (List Char) → List Char
  | [] => []
  | [s] => s
  | s :: rest => s ++ '/' :: joinSegs rest

/-- Effect of a `..` segment on the accumulator (Node's `normalizeString`):
pop the last emitted segment, unless there is none or it is itself `..`, in
which case `..` is emitted when `allow` (= Node's `allowAboveRoot`) holds. -/
def normDotdot (allow : Bool) (acc : List (List Char)) : List (List Char) :=
  match acc with
  | [] => if allow then [['.', '.']] else []
  | top :: tail =>
    if top = ['.', '.'] then (if allow then ['.', '.'] :: top :: tail else top :: tail)
    else tail

/-- Node's `normalizeString` segment pass: drop empty and `.` segments and
resolve `..` segments against the accumulator; `allow` is Node's
`allowAboveRoot` (true for relative paths, where leading `..` segments are
kept). The accumulator holds the already-emitted segments in reverse. -/
def normSegs (allow : Bool) (acc : List (List Char)) : List (List Char) → List (List Char)
  | [] => acc.reverse
  | seg :: rest =>
    if seg = [] ∨ seg = ['.'] then normSegs allow acc rest
    else if seg = ['.', '.'] then normSegs allow (normDotdot allow acc) rest
    else normSegs allow (seg :: acc) rest

/-- Node `path.posix.normalize` on character lists: split, run the segment
pass with `allowAboveRoot` for relative paths, reassemble, and restore the
leading separator of an absolute path and the trailing separator. -/
def normalizeL (p : List Char) : List Char :=
  if p = [] then ['.']
  else if normSegs (!startsWithSlash p) [] (splitSlash p) = [] then
    (if startsWithSlash p then ['/'] else if endsWithSlash p then ['.', '/'] else ['.'])
  else
    (if startsWithSlash p then ['/'] else []) ++
      joinSegs (normSegs (!startsWithSlash p) [] (splitSlash p)) ++
      (if endsWithSlash p then ['/'] else [])

/-- Node `path.posix.join` on character lists: drop empty arguments, put a
separator between the rest and normalize; with nothing left, return `.`. -/
def joinL (ps : List (List Char)) : List Char :=
  match ps.filter (fun s => !s.isEmpty) with
  | [] => ['.']
  | parts => normalizeL (joinSegs parts)

/-- Node `path.posix.resolve cwd rel` on character lists, in the shape the
source exercises (`cwd` is `process.cwd()`, hence absolute): normalize the
concatenation, dropping any trailing separator. -/
def resolveL (cwd rel : List Char) : List Char :=
  let p := cwd ++ '/' :: rel
  let abs := startsWithSlash p
  let segs := normSegs (!abs) [] (splitSlash p)
  if abs then '/' :: joinSegs segs
  else if segs = [] then ['.'] else joinSegs segs

/-- JavaScript `a.startsWith(b)` on character lists. -/
def listStartsWith : List Char → List Char → Bool
  | _, [] => true
  | [], _ :: _ => false
  | c :: cs, d :: ds => c == d && listStartsWith cs ds

/-- JavaScript `a.includes(b)` on character lists (substring containment). -/
def listIncludes : List Char → List Char → Bool
  | [], pat => pat.isEmpty
  | s@(_ :: rest), pat => listStartsWith s pat || listIncludes rest pat

/-! ### String-level wrappers -/

/-- Node `path.sep` under the POSIX model. -/
def pathSep : String := "/"

/-- Node `path.posix.normalize` on strings. -/
def normalize (s : String) : String := ⟨normalizeL s.data⟩

/-- Node `path.posix.join` on strings. -/
def joinList (ps : List String) : String := ⟨joinL (ps.map String.data)⟩

/-- Node `path.posix.resolve` on strings (absolute first argument). -/
def resolvePath (cwd rel : String) : String := ⟨resolveL cwd.data rel.data⟩

/-- Is the path absolute (does it begin with the separator)? -/
def isAbsolute (s : String) : Bool := startsWithSlash s.data

/-- JavaScript `String.prototype.includes` (for the resolver's nonempty
search patterns). -/
def strIncludes (s pat : String) : Bool := listIncludes s.data pat.data

/-- JavaScript `String.prototype.endsWith`. -/
def strEndsWith (s pat : String) : Bool := listStartsWith s.data.reverse pat.data.reverse

/-- JavaScript `String.prototype.startsWith`. -/
def strStartsWith (s pat : String) : Bool := listStartsWith s.data pat.data

/-! ### The YAML fragment the resolver navigates

`YAML.parse` hands the source an untyped JavaScript value. The resolver
only ever navigates string-keyed mappings, sequences, strings and null, so
the embedding restricts the value domain to that fragment. -/

/-- Parsed YAML values (the fragment `readConfigFile` navigates). -/
inductive Yaml where
  | null : Yaml
  | str : String → Yaml
  | seq : List Yaml → Yaml
  | map : List (String × Yaml) → Yaml

/-- First binding of a key in a parsed mapping. -/
def yLookup (k : String) : List (String × Yaml) → Option Yaml
  | [] => none
  | (k2, v) :: rest => if k2 = k then some v else yLookup k rest

/-- JavaScript property access `y[k]`: `none` models `undefined` (absent
key, or access on a non-object). -/
def jsGet (y : Yaml) (k : String) : Option Yaml :=
  match y with
  | .map kvs => yLookup k kvs
  | _ => none

/-- Property access chained through a possibly-undefined receiver. In the
source the receiver is always checked truthy before the next access, so
the `none` case is never reached on the executed path. -/
def jsGetO (o : Option Yaml) (k : String) : Option Yaml :=
  match o with
  | some y => jsGet y k
  | none => none

/-- JavaScript truthiness of a value in the modelled fragment (`null` and
the empty string are falsy; mappings and sequences, even empty, are
truthy). -/
def truthyY : Yaml → Bool
  | .null => false
  | .str s => s != ""
  | .seq _ => true
  | .map _ => true

/-- JavaScript truthiness of a possibly-undefined value. -/
def truthyO : Option Yaml → Bool
  | none => false
  | some y => truthyY y

/-! ### The resolver's data model -/

/-- `RuntimeType` from `src/runtimes.ts`. The detector `detectRuntime`
itself is an external collaborator (spec section 2); the resolver model
receives it as a function parameter. -/
inductive RuntimeType where
  | dotnet
  | node
  | unknown
deriving DecidableEq

/-- `Partial<GithubActionSWAConfig>`: the caller-supplied override record
(every field optional, including the build commands, which the override
merge never reads). -/
structure PartialSWAConfig where
  appBuildCommand : Option String := none
  apiBuildCommand : Option String := none
  appLocation : Option String := none
  apiLocation : Option String := none
  appArtifactLocation : Option String := none
deriving DecidableEq

/-- The resolved configuration record. The TypeScript declaration types
the two build commands as `string`, but the untyped `with` block flows
into them unchecked, so the model keeps them as `Yaml` values; the three
location fields always pass through `path` functions and are strings. -/
structure GithubActionSWAConfig where
  appBuildCommand : Yaml
  apiBuildCommand : Yaml
  appLocation : String
  apiLocation : String
  appArtifactLocation : String

/-- The filesystem facts `readConfigFile` consumes:
`workflowsDirExists` is `fs.existsSync` of the resolved
`.github/workflows` folder, `workflowsFiles` its `fs.readdirSync`
listing, `cwdFileExists f` is `fs.existsSync f` for a bare (relative)
filename `f`, and `parseFile p` the `YAML.parse` result of the file at
absolute path `p` (`Yaml.null` models a parse to `null`; a YAML document
that makes the parser itself throw is outside the model). -/
structure FsState where
  workflowsDirExists : Bool
  workflowsFiles : List String
  cwdFileExists : String → Bool
  parseFile : String → Yaml

/-- Outcome of a `readConfigFile` call: `warnFallback oc` models
`console.warn(warningMessage)` followed by `return overrideConfig`;
`err m` models a thrown `Error(m)`; `ok c` a returned configuration. -/
inductive ConfigResult where
  | warnFallback : Option PartialSWAConfig → ConfigResult
  | err : String → ConfigResult
  | ok : GithubActionSWAConfig → ConfigResult

/-! ### Error messages -/

/-- Shared suffix of the schema error messages. -/
def swaSuffix (file : String) : String :=
  " in the SWA workflow file \"" ++ file ++ "\". Make sure it\x27s a valid SWA workflow file."

/-- `missing property '<prop>' in the SWA workflow file "<file>". ...` -/
def missingPropMsg (prop file : String) : String :=
  "missing property \x27" ++ prop ++ "\x27" ++ swaSuffix file

/-- `invalid property 'jobs.build_and_deploy_job.steps[]' ...` -/
def invalidStepsMsg (file : String) : String :=
  "invalid property \x27jobs.build_and_deploy_job.steps[]\x27" ++ swaSuffix file

/-- Message of the parse failure error. -/
def parseMsg (file : String) : String :=
  "could not parse the SWA workflow file \"" ++ file ++ "\". Make sure it\x27s a valid YAML file."

/-- A truthy non-sequence `steps` value makes the source call `.find` on a
value that has none: the JavaScript engine throws a `TypeError` (this
message stands in for the engine's own text). -/
def stepsTypeErrorMsg : String :=
  "TypeError: swaYaml.jobs.build_and_deploy_job.steps.find is not a function"

/-- A `with` value that is present but not a string (in the modelled
fragment: null, a sequence or a mapping) reaches `path.join` /
`path.normalize`, which throw a `TypeError` on non-string arguments (this
message stands in for Node's own text). -/
def pathTypeErrorMsg : String :=
  "TypeError: path argument must be of type string"

/-- A `null` entry of `steps` makes the find callback read `.uses` off
`null`: the engine throws a `TypeError` (this message stands in for the
engine's own text). -/
def findNullStepMsg : String :=
  "TypeError: Cannot read properties of null (reading \x27uses\x27)"

/-- A step whose `uses` is truthy but has no `includes` method (a mapping
in the modelled fragment) makes the find callback throw a `TypeError`
(this message stands in for the engine's own text). -/
def findIncludesMsg : String :=
  "TypeError: step.uses.includes is not a function"

/-! ### The resolver (`readConfigFile`, `src/utils.ts` lines 112-236) -/

/-- The filename filter of the locator:
`file.includes("azure-static-web-apps") && file.endsWith(".yml")`. -/
def isActionFileName (f : String) : Bool :=
  strIncludes f "azure-static-web-apps" && strEndsWith f ".yml"

/-- The locator: filter the `.github/workflows` listing and take the last
match (`Array.prototype.pop`). -/
def locateActionFile (fs : FsState) : Option String :=
  (fs.workflowsFiles.filter isActionFileName).getLast?

/-- `path.resolve(process.cwd(), ".github/workflows/")`. -/
def githubActionFolder (cwd : String) : String :=
  resolvePath cwd ".github/workflows/"

/-- `path.resolve(githubActionFolder, githubActionFile)`. -/
def resolvedActionFile (cwd f : String) : String :=
  resolvePath (githubActionFolder cwd) f

/-- `swaYaml.jobs`. -/
def docJobs (doc : Yaml) : Option Yaml := jsGet doc "jobs"

/-- `swaYaml.jobs.build_and_deploy_job`. -/
def docBuildJob (doc : Yaml) : Option Yaml := jsGetO (docJobs doc) "build_and_deploy_job"

/-- `swaYaml.jobs.build_and_deploy_job.steps`. -/
def docSteps (doc : Yaml) : Option Yaml := jsGetO (docBuildJob doc) "steps"

/-- One evaluation of the find callback
`step.uses && step.uses.includes("static-web-apps-deploy")`. A null step
throws (property access on `null`); a falsy `uses` short-circuits to no
match; a string `uses` is tested for the marker substring; a
sequence-valued `uses` is a JavaScript array, whose own `includes` tests
element equality; a mapping-valued `uses` is truthy but has no `includes`
method, so the call throws. -/
def deployStepTest (step : Yaml) : Except String Bool :=
  match step with
  | .null => .error findNullStepMsg
  | _ =>
    match jsGet step "uses" with
    | some (.str s) => .ok (s != "" && strIncludes s "static-web-apps-deploy")
    | some (.seq l) =>
      .ok (l.any fun y =>
        match y with
        | .str s => s == "static-web-apps-deploy"
        | _ => false)
    | some (.map _) => .error findIncludesMsg
    | some .null => .ok false
    | none => .ok false

/-- `steps.find(step => ...)` (line 165): the first step the callback
accepts, or the uncaught exception the callback throws. -/
def findDeployStep : List Yaml → Except String (Option Yaml)
  | [] => .ok none
  | step :: rest =>
    match deployStepTest step with
    | .error m => .error m
    | .ok true => .ok (some step)
    | .ok false => findDeployStep rest

/-- Parse-result check and structural validation (lines 144-177): returns
the deploy step's `with` block, or the message of the error the source
(or, for the TypeError cases, the JavaScript engine) throws. -/
def validateDoc (file : String) (doc : Yaml) : Except String Yaml :=
  if truthyY doc = false then .error (parseMsg file)
  else if truthyO (docJobs doc) = false then .error (missingPropMsg "jobs" file)
  else if truthyO (docBuildJob doc) = false then
    .error (missingPropMsg "jobs.build_and_deploy_job" file)
  else if truthyO (docSteps doc) = false then
    .error (missingPropMsg "jobs.build_and_deploy_job.steps" file)
  else
    match docSteps doc with
    | some (.seq steps) =>
      (match findDeployStep steps with
       | .error m => .error m
       | .ok none => .error (invalidStepsMsg file)
       | .ok (some st) =>
         if truthyO (jsGet st "with") = false then
           .error (missingPropMsg "jobs.build_and_deploy_job.steps[].with" file)
         else .ok ((jsGet st "with").getD .null))
    | _ => .error stepsTypeErrorMsg

/-- Destructuring of a build-command field: the default applies only when
the key is absent (`undefined`); any present value flows through
unchecked. -/
def withVal (w : Yaml) (k : String) (dflt : String) : Yaml :=
  match jsGet w k with
  | none => .str dflt
  | some v => v

/-- Destructuring of a location field that must reach `path.join` /
`path.normalize`: the default applies when the key is absent; a present
non-string value makes those calls throw (`none`). -/
def withStr (w : Yaml) (k : String) (dflt : String) : Option String :=
  match jsGet w k with
  | none => some dflt
  | some (.str s) => some s
  | some _ => none

/-- Destructuring of `api_location`. A present `null` does not throw: the
source's `api_location || path.sep` turns every falsy value into the
separator before `path.join`, so `null` is modelled by the (equally falsy)
empty string. -/
def withStrApi (w : Yaml) : Option String :=
  match jsGet w "api_location" with
  | none => some "api"
  | some (.str s) => some s
  | some .null => some ""
  | some _ => none

/-- The raw `with` block after destructuring with defaults (lines
180-186). -/
structure RawWith where
  app_build_command : Yaml
  api_build_command : Yaml
  app_location : Option String
  app_artifact_location : Option String
  api_location : Option String

/-- Lines 180-186: extract the five fields, substituting the defaults for
absent ones. -/
def extractWith (w : Yaml) : RawWith :=
  { app_build_command := withVal w "app_build_command" "npm run build --if-present"
    api_build_command := withVal w "api_build_command" "npm run build --if-present"
    app_location := withStr w "app_location" pathSep
    app_artifact_location := withStr w "app_artifact_location" pathSep
    api_location := withStrApi w }

/-- Lines 197-203: the runtime-dependent artifact path. -/
def runtimeArtifactPath (detect : String → RuntimeType) (appLoc art : String) : String :=
  if detect appLoc = RuntimeType.dotnet then
    joinList [appLoc, "bin", "Debug", "netstandard2.1", "publish", art]
  else
    joinList [appLoc, art]

/-- Lines 206-223: one override field. A truthy (present, nonempty)
override replaces the current value by
`path.normalize(path.join(process.cwd(), value))`. -/
def applyOverride (cwd cur : String) (ov : Option String) : String :=
  match ov with
  | some s => if s = "" then cur else normalize (joinList [cwd, s])
  | none => cur

/-- Lines 180-231: default extraction, path resolution, runtime-dependent
artifact path, override merge, and assembly of the returned record. -/
def resolveConfig (cwd : String) (detect : String → RuntimeType)
    (oc : Option PartialSWAConfig) (w : Yaml) : Except String GithubActionSWAConfig :=
  let r := extractWith w
  match r.app_location, r.app_artifact_location, r.api_location with
  | some appLoc0, some art0, some apiLoc0 =>
    let appLoc1 := normalize (joinList [cwd, appLoc0])
    let apiLoc1 := normalize (joinList [cwd, if apiLoc0 = "" then pathSep else apiLoc0])
    let art1 := normalize art0
    let art2 := runtimeArtifactPath detect appLoc1 art1
    .ok
      { appBuildCommand := r.app_build_command
        apiBuildCommand := r.api_build_command
        appLocation := applyOverride cwd appLoc1 (oc.bind PartialSWAConfig.appLocation)
        apiLocation := applyOverride cwd apiLoc1 (oc.bind PartialSWAConfig.apiLocation)
        appArtifactLocation := applyOverride cwd art2 (oc.bind PartialSWAConfig.appArtifactLocation) }
  | _, _, _ => .error pathTypeErrorMsg

/-- The stage after the descriptor file has been read and parsed (lines
136-236). -/
def parseStage (cwd : String) (detect : String → RuntimeType)
    (oc : Option PartialSWAConfig) (file : String) (doc : Yaml) : ConfigResult :=
  match validateDoc file doc with
  | .error m => .err m
  | .ok w =>
    match resolveConfig cwd detect oc w with
    | .error m => .err m
    | .ok c => .ok c

/-- The stage after the directory listing has been filtered (lines
124-136): note that the `fs.existsSync` guard of line 129 tests the BARE
filename, i.e. a path relative to the working directory, not the resolved
descriptor path. -/
def fileStage (cwd : String) (fs : FsState) (detect : String → RuntimeType)
    (oc : Option PartialSWAConfig) : Option String → ConfigResult
  | none => .warnFallback oc
  | some f =>
    if fs.cwdFileExists f = true then .warnFallback oc
    else parseStage cwd detect oc (resolvedActionFile cwd f)
      (fs.parseFile (resolvedActionFile cwd f))

/-- `readConfigFile` (lines 112-236), as a function of the working
directory, the filesystem facts, the runtime detector and the
`overrideConfig` argument. -/
def readConfigFile (cwd : String) (fs : FsState) (detect : String → RuntimeType)
    (oc : Option PartialSWAConfig) : ConfigResult :=
  if fs.workflowsDirExists = false then .warnFallback oc
  else fileStage cwd fs detect oc (locateActionFile fs)

/-! ### Concrete fixtures for witnesses and counterexamples -/

/-- The `with` block of the specification's worked scenario. -/
def sampleWith : Yaml :=
  .map [("app_location", .str "client"), ("api_location", .str "server")]

/-- A deploy step carrying a given `with` block. -/
def mkDeployStep (w : Yaml) : Yaml :=
  .map [("uses", .str "Azure/static-web-apps-deploy@v0.0.1-preview"), ("with", w)]

/-- A well-formed workflow document with the given step list. -/
def mkDoc (steps : List Yaml) : Yaml :=
  .map [("jobs", .map [("build_and_deploy_job", .map [("steps", .seq steps)])])]

/-- A filesystem in which `.github/workflows` exists, holds exactly one
matching workflow file, no entry of the working directory shadows its bare
name, and parsing yields `doc`. -/
def mkFs (doc : Yaml) : FsState :=
  { workflowsDirExists := true
    workflowsFiles := ["azure-static-web-apps-test.yml"]
    cwdFileExists := fun _ => false
    parseFile := fun _ => doc }

/-- The scenario document: one deploy step with `sampleWith`. -/
def sampleDoc : Yaml := mkDoc [mkDeployStep sampleWith]

/-- A document whose steps contain no deploy-marker step. -/
def noDeployDoc : Yaml :=
  mkDoc [.map [("uses", .str "actions/checkout@v2")]]

/-- A document whose deploy step has no `with` block. -/
def noWithDoc : Yaml :=
  mkDoc [.map [("uses", .str "Azure/static-web-apps-deploy@v0.0.1-preview")]]

/-- A document with a step whose `uses` is a mapping: the find callback
throws a `TypeError` in JavaScript. -/
def objUsesDoc : Yaml :=
  mkDoc [.map [("uses", .map [("foo", .str "bar")])]]

/-- A detector that classifies every root as non-.NET. -/
def detectNode : String → RuntimeType := fun _ => RuntimeType.node

/-- A detector that classifies every root as .NET. -/
def detectDotnet : String → RuntimeType := fun _ => RuntimeType.dotnet

/-- A "clean" emitted segment: nonempty, not `.`, not `..`,
separator-free. -/
def CleanSeg (s : List Char) : Prop :=
  s ≠ [] ∧ s ≠ ['.'] ∧ s ≠ ['.', '.'] ∧ '/' ∉ s

/-- Shape of a normalized segment list: a run of `..` segments (possible
only for relative paths) followed by clean segments. -/
def GoodSegs (allow : Bool) (segs : List (List Char)) : Prop :=
  ∃ dd cs, segs = dd ++ cs ∧ (∀ s ∈ dd, s = ['.', '.']) ∧ (∀ s ∈ cs, CleanSeg s) ∧
    (allow = false → dd = [])

/-- The same shape for the accumulator, which holds the output reversed. -/
def AccGood (allow : Bool) (acc : List (List Char)) : Prop :=
  ∃ cs dd, acc = cs ++ dd ∧ (∀ s ∈ dd, s = ['.', '.']) ∧ (∀ s ∈ cs, CleanSeg s) ∧
    (allow = false → dd = [])

/-! ### Splitting and joining path segments -/

theorem splitSlash_cons_slash (rest : List Char) :
    splitSlash ('/' :: rest) = [] :: splitSlash rest := by
  conv_lhs => unfold splitSlash
  rw [if_pos rfl]

theorem splitSlash_cons_of_ne {c : Char} {rest : List Char} {s0 : List Char}
    {ss : List (List Char)} (h : ¬ c = '/') (hr : splitSlash rest = s0 :: ss) :
    splitSlash (c :: rest) = (c :: s0) :: ss := by
  conv_lhs => unfold splitSlash
  rw [if_neg h, hr]

theorem splitSlash_ne_nil (p : List Char) : splitSlash p ≠ [] := by
  cases p with
  | nil => simp [splitSlash]
  | cons c rest =>
    unfold splitSlash
    split
    · simp
    · split <;> simp

theorem splitSlash_no_slash {s : List Char} (h : '/' ∉ s) : splitSlash s = [s] := by
  induction s with
  | nil => rfl
  | cons c s' ih =>
    simp only [List.mem_cons, not_or] at h
    obtain ⟨hc, hs⟩ := h
    rw [splitSlash_cons_of_ne (fun e => hc e.symm) (ih hs)]

theorem splitSlash_append_slash {s : List Char} (t : List Char) (h : '/' ∉ s) :
    splitSlash (s ++ '/' :: t) = s :: splitSlash t := by
  induction s with
  | nil => simp [splitSlash_cons_slash]
  | cons c s' ih =>
    simp only [List.mem_cons, not_or] at h
    obtain ⟨hc, hs⟩ := h
    rw [List.cons_append, splitSlash_cons_of_ne (fun e => hc e.symm) (ih hs)]

theorem mem_splitSlash_no_slash : ∀ {p s : List Char}, s ∈ splitSlash p → '/' ∉ s := by
  intro p
  induction p with
  | nil =>
    intro s hs
    simp only [splitSlash, List.mem_singleton] at hs
    subst hs; simp
  | cons c rest ih =>
    intro s hs
    by_cases hc : c = '/'
    · subst hc
      rw [splitSlash_cons_slash, List.mem_cons] at hs
      rcases hs with h1 | h1
      · subst h1; simp
      · exact ih h1
    · cases hr : splitSlash rest with
      | nil => exact absurd hr (splitSlash_ne_nil rest)
      | cons s0 ss =>
        rw [splitSlash_cons_of_ne hc hr, List.mem_cons] at hs
        rcases hs with h1 | h1
        · subst h1
          intro hmem
          rcases List.mem_cons.mp hmem with he | he
          · exact hc he.symm
          · exact ih (hr ▸ List.mem_cons_self s0 ss) he
        · exact ih (by rw [hr]; exact List.mem_cons_of_mem _ h1)

theorem splitSlash_joinSegs : ∀ {segs : List (List Char)}, segs ≠ [] →
    (∀ s ∈ segs, '/' ∉ s) → splitSlash (joinSegs segs) = segs
  | [], h0, _ => absurd rfl h0
  | [s], _, h => by
    simpa [joinSegs] using splitSlash_no_slash (h s (by simp))
  | s :: s2 :: rest, _, h => by
    have e : joinSegs (s :: s2 :: rest) = s ++ '/' :: joinSegs (s2 :: rest) := rfl
    rw [e, splitSlash_append_slash _ (h s (by simp)),
      splitSlash_joinSegs (by simp) (fun x hx => h x (List.mem_cons_of_mem _ hx))]

theorem joinSegs_concat_empty : ∀ {segs : List (List Char)}, segs ≠ [] →
    joinSegs (segs ++ [[]]) = joinSegs segs ++ ['/']
  | [], h => absurd rfl h
  | [s], _ => by simp [joinSegs]
  | s :: s2 :: rest, _ => by
    have e1 : joinSegs ((s :: s2 :: rest) ++ [[]]) =
        s ++ '/' :: joinSegs ((s2 :: rest) ++ [[]]) := rfl
    have e2 : joinSegs (s :: s2 :: rest) = s ++ '/' :: joinSegs (s2 :: rest) := rfl
    rw [e1, e2, joinSegs_concat_empty (by simp)]
    simp

theorem joinSegs_cons (s : List Char) (rest : List (List Char)) :
    ∃ t, joinSegs (s :: rest) = s ++ t := by
  cases rest with
  | nil => exact ⟨[], by simp [joinSegs]⟩
  | cons y r => exact ⟨'/' :: joinSegs (y :: r), rfl⟩

theorem joinSegs_getLast : ∀ {segs : List (List Char)}, segs ≠ [] →
    (∀ s ∈ segs, s ≠ [] ∧ '/' ∉ s) →
    ∃ t c, joinSegs segs = t ++ [c] ∧ c ≠ '/'
  | [], h, _ => absurd rfl h
  | [s], _, h => by
    obtain ⟨hne, hnoslash⟩ := h s (by simp)
    refine ⟨s.dropLast, s.getLast hne, ?_, ?_⟩
    · simp [joinSegs, List.dropLast_append_getLast hne]
    · intro e
      exact hnoslash (e ▸ List.getLast_mem hne)
  | s :: s2 :: rest, _, h => by
    obtain ⟨t, c, e, hc⟩ := @joinSegs_getLast (s2 :: rest) (by simp)
      (fun x hx => h x (List.mem_cons_of_mem _ hx))
    refine ⟨s ++ '/' :: t, c, ?_, hc⟩
    have e2 : joinSegs (s :: s2 :: rest) = s ++ '/' :: joinSegs (s2 :: rest) := rfl
    rw [e2, e]
    simp

/-! ### Shape of the `normSegs` output -/

theorem GoodSegs_of_AccGood {allow : Bool} {acc : List (List Char)}
    (h : AccGood allow acc) : GoodSegs allow acc.reverse := by
  obtain ⟨cs, dd, rfl, hdd, hcs, hal⟩ := h
  refine ⟨dd.reverse, cs.reverse, by simp, ?_, ?_, ?_⟩
  · intro s hs
    exact hdd s (List.mem_reverse.mp hs)
  · intro s hs
    exact hcs s (List.mem_reverse.mp hs)
  · intro ha
    rw [hal ha, List.reverse_nil]

theorem normDotdot_nil (allow : Bool) :
    normDotdot allow [] = if allow then [['.', '.']] else [] := rfl

theorem normDotdot_cons (allow : Bool) (top : List Char) (tail : List (List Char)) :
    normDotdot allow (top :: tail) =
      if top = ['.', '.'] then (if allow then ['.', '.'] :: top :: tail else top :: tail)
      else tail := rfl

theorem normSegs_nil (allow : Bool) (acc : List (List Char)) :
    normSegs allow acc [] = acc.reverse := rfl

theorem normSegs_skip {seg : List Char} (allow : Bool) (acc l : List (List Char))
    (h : seg = [] ∨ seg = ['.']) :
    normSegs allow acc (seg :: l) = normSegs allow acc l := by
  conv_lhs => unfold normSegs
  rw [if_pos h]

theorem normSegs_dotdot (allow : Bool) (acc l : List (List Char)) :
    normSegs allow acc (['.', '.'] :: l) = normSegs allow (normDotdot allow acc) l := by
  conv_lhs => unfold normSegs
  rw [if_neg (by simp), if_pos rfl]

theorem normSegs_push {seg : List Char} (allow : Bool) (acc l : List (List Char))
    (h1 : ¬(seg = [] ∨ seg = ['.'])) (h2 : seg ≠ ['.', '.']) :
    normSegs allow acc (seg :: l) = normSegs allow (seg :: acc) l := by
  conv_lhs => unfold normSegs
  rw [if_neg h1, if_neg h2]

theorem normSegs_AccGood (allow : Bool) :
    ∀ (l acc : List (List Char)), (∀ s ∈ l, '/' ∉ s) → AccGood allow acc →
      GoodSegs allow (normSegs allow acc l)
  | [], acc, _, hacc => by
    rw [normSegs_nil]
    exact GoodSegs_of_AccGood hacc
  | seg :: rest, acc, hl, hacc => by
    have hrest : ∀ s ∈ rest, '/' ∉ s := fun s hs => hl s (List.mem_cons_of_mem _ hs)
    have hseg : '/' ∉ seg := hl seg (List.mem_cons_self _ _)
    by_cases h1 : seg = [] ∨ seg = ['.']
    · rw [normSegs_skip allow acc rest h1]
      exact normSegs_AccGood allow rest acc hrest hacc
    · by_cases h2 : seg = ['.', '.']
      · subst h2
        rw [normSegs_dotdot allow acc rest]
        refine normSegs_AccGood allow rest _ hrest ?_
        obtain ⟨cs, dd, heq, hdd, hcs, hal⟩ := hacc
        cases hacc2 : acc with
        | nil =>
          rw [normDotdot_nil]
          cases ha : allow with
          | true =>
            rw [if_pos rfl]
            exact ⟨[], [['.', '.']], rfl, by simp, by simp, by simp⟩
          | false =>
            rw [if_neg (by simp)]
            exact ⟨[], [], rfl, by simp, by simp, fun _ => rfl⟩
        | cons top tail =>
          subst hacc2
          rw [normDotdot_cons]
          by_cases h3 : top = ['.', '.']
          · rw [if_pos h3]
            have hcsnil : cs = [] := by
              cases cs with
              | nil => rfl
              | cons c0 cs' =>
                exfalso
                have : top = c0 := by
                  have := heq
                  rw [List.cons_append] at this
                  exact (List.cons.injEq _ _ _ _ ▸ this).1
                obtain ⟨_, _, hne, _⟩ := hcs c0 (List.mem_cons_self _ _)
                exact hne (this ▸ h3)
            subst hcsnil
            simp only [List.nil_append] at heq
            have halltop : ∀ s ∈ top :: tail, s = ['.', '.'] := by
              rw [heq]; exact hdd
            cases ha : allow with
            | true =>
              rw [if_pos rfl]
              exact ⟨[], ['.', '.'] :: top :: tail, rfl,
                fun s hs => by
                  rcases List.mem_cons.mp hs with h4 | h4
                  · exact h4
                  · exact halltop s h4,
                by simp, by simp⟩
            | false =>
              exfalso
              rw [hal ha] at heq
              exact List.cons_ne_nil _ _ heq
          · rw [if_neg h3]
            cases cs with
            | nil =>
              exfalso
              apply h3
              apply hdd top
              rw [← List.nil_append dd, ← heq]
              exact List.mem_cons_self _ _
            | cons c0 cs' =>
              have e2 : tail = cs' ++ dd := by
                rw [List.cons_append] at heq
                exact (List.cons.injEq _ _ _ _ ▸ heq).2
              exact ⟨cs', dd, e2, hdd,
                fun s hs => hcs s (List.mem_cons_of_mem _ hs), hal⟩
      · rw [normSegs_push allow acc rest h1 h2]
        refine normSegs_AccGood allow rest _ hrest ?_
        obtain ⟨cs, dd, rfl, hdd, hcs, hal⟩ := hacc
        rw [not_or] at h1
        exact ⟨seg :: cs, dd, rfl, hdd,
          fun s hs => by
            rcases List.mem_cons.mp hs with h4 | h4
            · subst h4; exact ⟨h1.1, h1.2, h2, hseg⟩
            · exact hcs s h4,
          hal⟩

theorem normSegs_good (allow : Bool) (l : List (List Char))
    (h : ∀ s ∈ l, '/' ∉ s) : GoodSegs allow (normSegs allow [] l) :=
  normSegs_AccGood allow l [] h ⟨[], [], rfl, by simp, by simp, fun _ => rfl⟩

/-! ### Renormalizing a normalized segment list is the identity -/

theorem normSegs_clean_append (allow : Bool) :
    ∀ (l acc : List (List Char)), (∀ s ∈ l, CleanSeg s) →
      normSegs allow acc l = acc.reverse ++ l
  | [], acc, _ => by
    rw [normSegs_nil, List.append_nil]
  | seg :: rest, acc, h => by
    obtain ⟨h1, h2, h3, _⟩ := h seg (List.mem_cons_self _ _)
    rw [normSegs_push allow acc rest (by simp [h1, h2]) h3,
      normSegs_clean_append allow rest (seg :: acc)
        (fun s hs => h s (List.mem_cons_of_mem _ hs))]
    simp

theorem normSegs_dotdot_append :
    ∀ (dd l acc : List (List Char)), (∀ s ∈ dd, s = ['.', '.']) →
      (∀ s ∈ acc, s = ['.', '.']) →
      normSegs true acc (dd ++ l) = normSegs true (dd.reverse ++ acc) l
  | [], l, acc, _, _ => by simp
  | seg :: dd', l, acc, hdd, hacc => by
    have hseg : seg = ['.', '.'] := hdd seg (List.mem_cons_self _ _)
    subst hseg
    rw [List.cons_append, normSegs_dotdot true acc (dd' ++ l)]
    have hstep : normDotdot true acc = ['.', '.'] :: acc := by
      cases acc with
      | nil => rfl
      | cons top tail =>
        rw [normDotdot_cons, if_pos (hacc top (List.mem_cons_self _ _)), if_pos rfl]
    rw [hstep,
      normSegs_dotdot_append dd' l (['.', '.'] :: acc)
        (fun s hs => hdd s (List.mem_cons_of_mem _ hs))
        (fun s hs => by
          rcases List.mem_cons.mp hs with h4 | h4
          · exact h4
          · exact hacc s h4)]
    simp

theorem normSegs_id_of_good {allow : Bool} {segs : List (List Char)}
    (h : GoodSegs allow segs) : normSegs allow [] segs = segs := by
  obtain ⟨dd, cs, rfl, hdd, hcs, hal⟩ := h
  cases allow with
  | false =>
    rw [hal rfl, List.nil_append]
    simpa using normSegs_clean_append false cs [] hcs
  | true =>
    rw [normSegs_dotdot_append dd cs [] hdd (by simp),
      normSegs_clean_append true cs (dd.reverse ++ []) hcs]
    simp

theorem normSegs_append_empty (allow : Bool) :
    ∀ (l acc : List (List Char)), normSegs allow acc (l ++ [[]]) = normSegs allow acc l
  | [], acc => by
    rw [List.nil_append, normSegs_skip allow acc [] (Or.inl rfl)]
  | seg :: l', acc => by
    rw [List.cons_append]
    by_cases h1 : seg = [] ∨ seg = ['.']
    · rw [normSegs_skip allow acc _ h1, normSegs_skip allow acc _ h1,
        normSegs_append_empty allow l' acc]
    · by_cases h2 : seg = ['.', '.']
      · subst h2
        rw [normSegs_dotdot, normSegs_dotdot, normSegs_append_empty allow l' _]
      · rw [normSegs_push allow acc _ h1 h2, normSegs_push allow acc _ h1 h2,
          normSegs_append_empty allow l' _]

/-- Members of a normalized segment list are nonempty and separator-free. -/
theorem GoodSegs_members {allow : Bool} {segs : List (List Char)}
    (h : GoodSegs allow segs) : ∀ s ∈ segs, s ≠ [] ∧ '/' ∉ s := by
  obtain ⟨dd, cs, rfl, hdd, hcs, _⟩ := h
  intro s hs
  rcases List.mem_append.mp hs with h4 | h4
  · rw [hdd s h4]
    exact ⟨by simp, by simp⟩
  · obtain ⟨h5, _, _, h6⟩ := hcs s h4
    exact ⟨h5, h6⟩

/-! ### Idempotence of `normalizeL` -/

theorem startsWithSlash_cons (c : Char) (l : List Char) :
    startsWithSlash (c :: l) = (c == '/') := rfl

theorem startsWithSlash_append {a : List Char} (b : List Char) (ha : a ≠ []) :
    startsWithSlash (a ++ b) = startsWithSlash a := by
  cases a with
  | nil => exact absurd rfl ha
  | cons c l => rfl

theorem endsWithSlash_append {b : List Char} (a : List Char) (hb : b ≠ []) :
    endsWithSlash (a ++ b) = endsWithSlash b := by
  unfold endsWithSlash
  rw [List.reverse_append, startsWithSlash_append _ (by simpa using hb)]

theorem joinSegs_ne_nil {segs : List (List Char)} (hne : segs ≠ [])
    (hmem : ∀ s ∈ segs, s ≠ [] ∧ '/' ∉ s) : joinSegs segs ≠ [] := by
  cases segs with
  | nil => exact absurd rfl hne
  | cons s0 rest =>
    obtain ⟨t, e⟩ := joinSegs_cons s0 rest
    rw [e]
    have h0 := (hmem s0 (List.mem_cons_self _ _)).1
    cases s0 with
    | nil => exact absurd rfl h0
    | cons c l => simp

theorem joinSegs_head_not_slash {segs : List (List Char)} (hne : segs ≠ [])
    (hmem : ∀ s ∈ segs, s ≠ [] ∧ '/' ∉ s) :
    startsWithSlash (joinSegs segs) = false := by
  cases segs with
  | nil => exact absurd rfl hne
  | cons s0 rest =>
    obtain ⟨t, e⟩ := joinSegs_cons s0 rest
    obtain ⟨h0, h1⟩ := hmem s0 (List.mem_cons_self _ _)
    cases s0 with
    | nil => exact absurd rfl h0
    | cons c l =>
      rw [e, List.cons_append, startsWithSlash_cons]
      simp only [List.mem_cons, not_or] at h1
      exact beq_eq_false_iff_ne.mpr (fun he => h1.1 (he ▸ rfl))

theorem joinSegs_last_not_slash {segs : List (List Char)} (hne : segs ≠ [])
    (hmem : ∀ s ∈ segs, s ≠ [] ∧ '/' ∉ s) :
    endsWithSlash (joinSegs segs) = false := by
  obtain ⟨t, c, e, hc⟩ := joinSegs_getLast hne hmem
  rw [e]
  unfold endsWithSlash
  rw [List.reverse_append]
  simp only [List.reverse_singleton, List.singleton_append, startsWithSlash_cons]
  exact beq_eq_false_iff_ne.mpr hc

theorem normalizeL_expand {p : List Char} (h : p ≠ []) :
    normalizeL p =
      if normSegs (!startsWithSlash p) [] (splitSlash p) = [] then
        (if startsWithSlash p then ['/'] else if endsWithSlash p then ['.', '/'] else ['.'])
      else
        (if startsWithSlash p then ['/'] else []) ++
          joinSegs (normSegs (!startsWithSlash p) [] (splitSlash p)) ++
          (if endsWithSlash p then ['/'] else []) := by
  unfold normalizeL
  rw [if_neg h]

/-- Renormalizing the rendered form of a normalized segment list gives it
back. -/
theorem renormalize_render {allow : Bool} {segs : List (List Char)} (abs trail : Bool)
    (hgood : GoodSegs allow segs) (hsegs : segs ≠ []) (hallow : allow = !abs) :
    normalizeL ((if abs then ['/'] else []) ++ joinSegs segs ++ (if trail then ['/'] else [])) =
      (if abs then ['/'] else []) ++ joinSegs segs ++ (if trail then ['/'] else []) := by
  have hmem := GoodSegs_members hgood
  have hbody := joinSegs_ne_nil hsegs hmem
  have hsplit0 : splitSlash (joinSegs segs) = segs :=
    splitSlash_joinSegs hsegs (fun s hs => (hmem s hs).2)
  have hsplit1 : splitSlash (joinSegs segs ++ ['/']) = segs ++ [[]] := by
    rw [← joinSegs_concat_empty hsegs]
    refine splitSlash_joinSegs (by simp) (fun s hs => ?_)
    rcases List.mem_append.mp hs with h4 | h4
    · exact (hmem s h4).2
    · simp only [List.mem_singleton] at h4
      subst h4; simp
  have hns0 : normSegs allow [] segs = segs := normSegs_id_of_good hgood
  have hns1 : normSegs allow [] (segs ++ [[]]) = segs := by
    rw [normSegs_append_empty, hns0]
  have hhead : startsWithSlash (joinSegs segs) = false := joinSegs_head_not_slash hsegs hmem
  have hlast : endsWithSlash (joinSegs segs) = false := joinSegs_last_not_slash hsegs hmem
  subst hallow
  cases abs with
  | true =>
    cases trail with
    | true =>
      show normalizeL ('/' :: (joinSegs segs ++ ['/'])) = '/' :: (joinSegs segs ++ ['/'])
      have hne : ('/' :: (joinSegs segs ++ ['/'])) ≠ [] := by simp
      have habs2 : startsWithSlash ('/' :: (joinSegs segs ++ ['/'])) = true := by
        rw [startsWithSlash_cons]; rfl
      have htr2 : endsWithSlash ('/' :: (joinSegs segs ++ ['/'])) = true := by
        have e : ('/' :: (joinSegs segs ++ ['/'])) = ('/' :: joinSegs segs) ++ ['/'] := by simp
        rw [e, endsWithSlash_append _ (by simp)]; rfl
      have hsp : splitSlash ('/' :: (joinSegs segs ++ ['/'])) = [] :: (segs ++ [[]]) := by
        rw [splitSlash_cons_slash, hsplit1]
      have hns2 : normSegs (!true) [] ([] :: (segs ++ [[]])) = segs := by
        rw [normSegs_skip _ _ _ (Or.inl rfl)]
        exact hns1
      rw [normalizeL_expand hne, habs2, htr2, hsp, hns2, if_neg hsegs]
      simp
    | false =>
      show normalizeL (('/' :: joinSegs segs) ++ []) = ('/' :: joinSegs segs) ++ []
      rw [List.append_nil]
      have hne : ('/' :: joinSegs segs) ≠ [] := by simp
      have habs2 : startsWithSlash ('/' :: joinSegs segs) = true := by
        rw [startsWithSlash_cons]; rfl
      have htr2 : endsWithSlash ('/' :: joinSegs segs) = false := by
        have e : ('/' :: joinSegs segs) = ['/'] ++ joinSegs segs := rfl
        rw [e, endsWithSlash_append _ hbody]
        exact hlast
      have hsp : splitSlash ('/' :: joinSegs segs) = [] :: segs := by
        rw [splitSlash_cons_slash, hsplit0]
      have hns2 : normSegs (!true) [] ([] :: segs) = segs := by
        rw [normSegs_skip _ _ _ (Or.inl rfl)]
        exact hns0
      rw [normalizeL_expand hne, habs2, htr2, hsp, hns2, if_neg hsegs]
      simp
  | false =>
    cases trail with
    | true =>
      show normalizeL (joinSegs segs ++ ['/']) = joinSegs segs ++ ['/']
      have hne : (joinSegs segs ++ ['/']) ≠ [] := by simp
      have habs2 : startsWithSlash (joinSegs segs ++ ['/']) = false := by
        rw [startsWithSlash_append _ hbody]
        exact hhead
      have htr2 : endsWithSlash (joinSegs segs ++ ['/']) = true := by
        rw [endsWithSlash_append _ (by simp)]; rfl
      have hns2 : normSegs (!false) [] (segs ++ [[]]) = segs := hns1
      rw [normalizeL_expand hne, habs2, htr2, hsplit1, hns2, if_neg hsegs]
      simp
    | false =>
      show normalizeL (joinSegs segs ++ []) = joinSegs segs ++ []
      rw [List.append_nil]
      rw [normalizeL_expand hbody, hhead, hlast, hsplit0, hns0, if_neg hsegs]
      simp

/-- `normalizeL` is idempotent. -/
theorem normalizeL_idem (p : List Char) : normalizeL (normalizeL p) = normalizeL p := by
  by_cases hp : p = []
  · subst hp; decide
  · rw [normalizeL_expand hp]
    by_cases hsegs : normSegs (!startsWithSlash p) [] (splitSlash p) = []
    · rw [if_pos hsegs]
      by_cases habs : startsWithSlash p = true
      · rw [if_pos habs]; decide
      · rw [if_neg habs]
        by_cases htr : endsWithSlash p = true
        · rw [if_pos htr]; decide
        · rw [if_neg htr]; decide
    · rw [if_neg hsegs]
      exact renormalize_render (startsWithSlash p) (endsWithSlash p)
        (normSegs_good _ _ (fun s hs => mem_splitSlash_no_slash hs)) hsegs rfl

/-- `normalizeL` keeps a path absolute. -/
theorem startsWithSlash_normalizeL {p : List Char} (h : startsWithSlash p = true) :
    startsWithSlash (normalizeL p) = true := by
  have hp : p ≠ [] := by
    intro e
    rw [e] at h
    exact absurd h (by simp [startsWithSlash])
  rw [normalizeL_expand hp, h]
  by_cases hsegs : normSegs (!true) [] (splitSlash p) = []
  · rw [if_pos hsegs, if_pos rfl]
    rfl
  · rw [if_neg hsegs, if_pos rfl,
      startsWithSlash_append _ (by simp), startsWithSlash_append _ (by simp)]
    rfl

/-! ### String-level consequences -/

theorem normalize_idem (s : String) : normalize (normalize s) = normalize s := by
  unfold normalize
  exact congrArg String.mk (normalizeL_idem s.data)

theorem isAbsolute_normalize {s : String} (h : isAbsolute s = true) :
    isAbsolute (normalize s) = true :=
  startsWithSlash_normalizeL h

theorem isAbsolute_data_ne_nil {a : String} (h : isAbsolute a = true) : a.data ≠ [] := by
  intro e
  unfold isAbsolute at h
  rw [e] at h
  exact absurd h (by simp [startsWithSlash])

/-- Joining any further components onto an absolute path yields an
absolute, normalized path. -/
theorem joinList_cons_abs {a : String} (rest : List String) (h : isAbsolute a = true) :
    isAbsolute (joinList (a :: rest)) = true ∧
      normalize (joinList (a :: rest)) = joinList (a :: rest) := by
  have hne := isAbsolute_data_ne_nil h
  have hfil : (a.data :: rest.map String.data).filter (fun s => !s.isEmpty) =
      a.data :: (rest.map String.data).filter (fun s => !s.isEmpty) := by
    rw [List.filter_cons_of_pos]
    cases hd : a.data with
    | nil => exact absurd hd hne
    | cons c l => simp
  have e1 : joinList (a :: rest) =
      ⟨normalizeL (joinSegs (a.data :: (rest.map String.data).filter (fun s => !s.isEmpty)))⟩ := by
    unfold joinList joinL
    rw [List.map_cons, hfil]
  constructor
  · rw [e1]
    apply startsWithSlash_normalizeL
    obtain ⟨t, e⟩ := joinSegs_cons a.data ((rest.map String.data).filter (fun s => !s.isEmpty))
    rw [e, startsWithSlash_append _ hne]
    exact h
  · rw [e1]
    unfold normalize
    exact congrArg String.mk (normalizeL_idem _)

/-- `normalize (joinList (a :: rest))` is absolute and normalized whenever
`a` is absolute. -/
theorem normalize_joinList_cons_abs {a : String} (rest : List String)
    (h : isAbsolute a = true) :
    isAbsolute (normalize (joinList (a :: rest))) = true ∧
      normalize (normalize (joinList (a :: rest))) = normalize (joinList (a :: rest)) :=
  ⟨isAbsolute_normalize (joinList_cons_abs rest h).1, normalize_idem _⟩

/-! ### Plumbing lemmas for `readConfigFile` -/

theorem readConfigFile_located {cwd : String} {fs : FsState} {detect : String → RuntimeType}
    {oc : Option PartialSWAConfig} {f : String}
    (h1 : fs.workflowsDirExists = true) (h2 : locateActionFile fs = some f)
    (h3 : fs.cwdFileExists f = false) :
    readConfigFile cwd fs detect oc =
      parseStage cwd detect oc (resolvedActionFile cwd f)
        (fs.parseFile (resolvedActionFile cwd f)) := by
  unfold readConfigFile
  rw [h1, if_neg (by simp), h2]
  show (if fs.cwdFileExists f = true then ConfigResult.warnFallback oc
    else parseStage cwd detect oc (resolvedActionFile cwd f)
      (fs.parseFile (resolvedActionFile cwd f))) = _
  rw [h3, if_neg (by simp)]

theorem parseStage_error {cwd : String} {detect : String → RuntimeType}
    {oc : Option PartialSWAConfig} {file : String} {doc : Yaml} {m : String}
    (h : validateDoc file doc = .error m) :
    parseStage cwd detect oc file doc = .err m := by
  unfold parseStage
  rw [h]

theorem parseStage_ok {cwd : String} {detect : String → RuntimeType}
    {oc : Option PartialSWAConfig} {file : String} {doc : Yaml} {w : Yaml}
    (h : validateDoc file doc = .ok w) :
    parseStage cwd detect oc file doc =
      match resolveConfig cwd detect oc w with
      | .error m => .err m
      | .ok c => .ok c := by
  unfold parseStage
  rw [h]

theorem resolveConfig_eq {cwd : String} {detect : String → RuntimeType}
    {oc : Option PartialSWAConfig} {w : Yaml} {appLoc0 art0 apiLoc0 : String}
    (hA : (extractWith w).app_location = some appLoc0)
    (hB : (extractWith w).app_artifact_location = some art0)
    (hC : (extractWith w).api_location = some apiLoc0) :
    resolveConfig cwd detect oc w = .ok
      { appBuildCommand := (extractWith w).app_build_command
        apiBuildCommand := (extractWith w).api_build_command
        appLocation := applyOverride cwd (normalize (joinList [cwd, appLoc0]))
          (oc.bind PartialSWAConfig.appLocation)
        apiLocation := applyOverride cwd
          (normalize (joinList [cwd, if apiLoc0 = "" then pathSep else apiLoc0]))
          (oc.bind PartialSWAConfig.apiLocation)
        appArtifactLocation := applyOverride cwd
          (runtimeArtifactPath detect (normalize (joinList [cwd, appLoc0])) (normalize art0))
          (oc.bind PartialSWAConfig.appArtifactLocation) } := by
  simp only [resolveConfig]
  rw [hA, hB, hC]

theorem resolveConfig_ok_inv {cwd : String} {detect : String → RuntimeType}
    {oc : Option PartialSWAConfig} {w : Yaml} {cfg : GithubActionSWAConfig}
    (h : resolveConfig cwd detect oc w = .ok cfg) :
    ∃ appLoc0 art0 apiLoc0,
      (extractWith w).app_location = some appLoc0 ∧
      (extractWith w).app_artifact_location = some art0 ∧
      (extractWith w).api_location = some apiLoc0 ∧
      cfg = { appBuildCommand := (extractWith w).app_build_command
              apiBuildCommand := (extractWith w).api_build_command
              appLocation := applyOverride cwd (normalize (joinList [cwd, appLoc0]))
                (oc.bind PartialSWAConfig.appLocation)
              apiLocation := applyOverride cwd
                (normalize (joinList [cwd, if apiLoc0 = "" then pathSep else apiLoc0]))
                (oc.bind PartialSWAConfig.apiLocation)
              appArtifactLocation := applyOverride cwd
                (runtimeArtifactPath detect (normalize (joinList [cwd, appLoc0]))
                  (normalize art0))
                (oc.bind PartialSWAConfig.appArtifactLocation) } := by
  cases hA : (extractWith w).app_location with
  | none =>
    rw [resolveConfig, hA] at h
    simp at h
  | some appLoc0 =>
    cases hB : (extractWith w).app_artifact_location with
    | none =>
      rw [resolveConfig, hA, hB] at h
      simp at h
    | some art0 =>
      cases hC : (extractWith w).api_location with
      | none =>
        rw [resolveConfig, hA, hB, hC] at h
        simp at h
      | some apiLoc0 =>
        rw [resolveConfig_eq hA hB hC] at h
        refine ⟨appLoc0, art0, apiLoc0, rfl, rfl, rfl, ?_⟩
        exact (Except.ok.injEq _ _ ▸ h).symm

/-! ### `validateDoc` case equations -/

theorem validateDoc_parse_error {file : String} {doc : Yaml} (h : truthyY doc = false) :
    validateDoc file doc = .error (parseMsg file) := by
  unfold validateDoc
  rw [h, if_pos rfl]

theorem validateDoc_missing_jobs {file : String} {doc : Yaml}
    (h0 : truthyY doc = true) (h1 : truthyO (docJobs doc) = false) :
    validateDoc file doc = .error (missingPropMsg "jobs" file) := by
  unfold validateDoc
  rw [h0, if_neg (by simp), h1, if_pos rfl]

theorem validateDoc_missing_bj {file : String} {doc : Yaml}
    (h0 : truthyY doc = true) (h1 : truthyO (docJobs doc) = true)
    (h2 : truthyO (docBuildJob doc) = false) :
    validateDoc file doc = .error (missingPropMsg "jobs.build_and_deploy_job" file) := by
  unfold validateDoc
  rw [h0, if_neg (by simp), h1, if_neg (by simp), h2, if_pos rfl]

theorem validateDoc_missing_steps {file : String} {doc : Yaml}
    (h0 : truthyY doc = true) (h1 : truthyO (docJobs doc) = true)
    (h2 : truthyO (docBuildJob doc) = true) (h3 : truthyO (docSteps doc) = false) :
    validateDoc file doc = .error (missingPropMsg "jobs.build_and_deploy_job.steps" file) := by
  unfold validateDoc
  rw [h0, if_neg (by simp), h1, if_neg (by simp), h2, if_neg (by simp), h3, if_pos rfl]

theorem validateDoc_steps {file : String} {doc : Yaml} {steps : List Yaml}
    (h0 : truthyY doc = true) (h1 : truthyO (docJobs doc) = true)
    (h2 : truthyO (docBuildJob doc) = true) (h3 : docSteps doc = some (.seq steps)) :
    validateDoc file doc =
      match findDeployStep steps with
      | .error m => .error m
      | .ok none => .error (invalidStepsMsg file)
      | .ok (some st) =>
        if truthyO (jsGet st "with") = false then
          .error (missingPropMsg "jobs.build_and_deploy_job.steps[].with" file)
        else .ok ((jsGet st "with").getD .null) := by
  unfold validateDoc
  rw [h0, if_neg (by simp), h1, if_neg (by simp), h2, if_neg (by simp), h3,
    if_neg (by simp [truthyO, truthyY])]

/-! ### Message facts -/

theorem listStartsWith_append_self : ∀ (a b : List Char), listStartsWith (a ++ b) a = true
  | [], b => by cases b <;> rfl
  | c :: a', b => by
    show (c == c && listStartsWith (a' ++ b) a') = true
    rw [listStartsWith_append_self a' b]
    simp

theorem strStartsWith_append (a b : String) : strStartsWith (a ++ b) a = true := by
  unfold strStartsWith
  rw [String.data_append]
  exact listStartsWith_append_self a.data b.data

/-- Two strings with the same suffix but prefixes of different lengths
differ. -/
theorem append_suffix_ne {a b : String} (sfx : String) (h : a.length ≠ b.length) :
    a ++ sfx ≠ b ++ sfx := by
  intro e
  apply h
  have h2 := congrArg String.length e
  rw [String.length_append, String.length_append] at h2
  omega

/-! ### Absolute, normalized outputs -/

theorem applyOverride_absNorm {cwd cur : String} (ov : Option String)
    (habs : isAbsolute cwd = true)
    (hcur : isAbsolute cur = true ∧ normalize cur = cur) :
    isAbsolute (applyOverride cwd cur ov) = true ∧
      normalize (applyOverride cwd cur ov) = applyOverride cwd cur ov := by
  cases ov with
  | none => exact hcur
  | some s =>
    have e : applyOverride cwd cur (some s) =
        if s = "" then cur else normalize (joinList [cwd, s]) := rfl
    by_cases hs : s = ""
    · rw [e, if_pos hs]
      exact hcur
    · rw [e, if_neg hs]
      exact normalize_joinList_cons_abs [s] habs

theorem runtimeArtifactPath_absNorm (detect : String → RuntimeType) {appLoc : String}
    (art : String) (h : isAbsolute appLoc = true) :
    isAbsolute (runtimeArtifactPath detect appLoc art) = true ∧
      normalize (runtimeArtifactPath detect appLoc art) =
        runtimeArtifactPath detect appLoc art := by
  unfold runtimeArtifactPath
  by_cases hd : detect appLoc = RuntimeType.dotnet
  · rw [if_pos hd]
    exact joinList_cons_abs _ h
  · rw [if_neg hd]
    exact joinList_cons_abs _ h

/-- A successful `readConfigFile` call factors through the located file,
the validated `with` block and `resolveConfig`. -/
theorem readConfigFile_ok_inv {cwd : String} {fs : FsState} {detect : String → RuntimeType}
    {oc : Option PartialSWAConfig} {cfg : GithubActionSWAConfig}
    (h : readConfigFile cwd fs detect oc = .ok cfg) :
    ∃ f w, fs.workflowsDirExists = true ∧ locateActionFile fs = some f ∧
      fs.cwdFileExists f = false ∧
      validateDoc (resolvedActionFile cwd f) (fs.parseFile (resolvedActionFile cwd f)) = .ok w ∧
      resolveConfig cwd detect oc w = .ok cfg := by
  unfold readConfigFile at h
  by_cases h1 : fs.workflowsDirExists = false
  · rw [h1, if_pos rfl] at h
    exact ConfigResult.noConfusion h
  · rw [if_neg h1] at h
    have h1t : fs.workflowsDirExists = true := by
      cases he : fs.workflowsDirExists
      · exact absurd he h1
      · rfl
    cases h2 : locateActionFile fs with
    | none =>
      rw [h2] at h
      exact ConfigResult.noConfusion h
    | some f =>
      rw [h2] at h
      by_cases h3 : fs.cwdFileExists f = true
      · have e : fileStage cwd fs detect oc (some f) = .warnFallback oc := by
          show (if fs.cwdFileExists f = true then ConfigResult.warnFallback oc else _) = _
          rw [h3, if_pos rfl]
        rw [e] at h
        exact ConfigResult.noConfusion h
      · have h3f : fs.cwdFileExists f = false := by
          cases he : fs.cwdFileExists f
          · rfl
          · exact absurd he h3
        have e : fileStage cwd fs detect oc (some f) =
            parseStage cwd detect oc (resolvedActionFile cwd f)
              (fs.parseFile (resolvedActionFile cwd f)) := by
          show (if fs.cwdFileExists f = true then ConfigResult.warnFallback oc else _) = _
          rw [h3f, if_neg (by simp)]
        rw [e] at h
        cases h4 : validateDoc (resolvedActionFile cwd f) (fs.parseFile (resolvedActionFile cwd f)) with
        | error m =>
          rw [parseStage_error h4] at h
          exact ConfigResult.noConfusion h
        | ok w =>
          rw [parseStage_ok h4] at h
          cases h5 : resolveConfig cwd detect oc w with
          | error m =>
            rw [h5] at h
            exact ConfigResult.noConfusion h
          | ok c =>
            rw [h5] at h
            have hc : c = cfg := by
              have e2 : (match (Except.ok c : Except String GithubActionSWAConfig) with
                | .error m => ConfigResult.err m
                | .ok c => ConfigResult.ok c) = ConfigResult.ok c := rfl
              rw [e2] at h
              exact ConfigResult.ok.inj h
            exact ⟨f, w, h1t, rfl, h3f, h4, hc ▸ h5⟩

/-! ## Claim theorems -/

/-- C3: if the `.github/workflows` directory does not exist, or no file in
its listing matches the name pattern, `readConfigFile` never throws: it
warns (`warnFallback`) and returns the caller-supplied override record
unchanged — not path-resolved — or `undefined` when no override was given,
skipping descriptor parsing entirely. -/
theorem C3_degraded_fallback (cwd : String) (fs : FsState) (detect : String → RuntimeType)
    (oc : Option PartialSWAConfig)
    (h : fs.workflowsDirExists = false ∨ locateActionFile fs = none) :
    readConfigFile cwd fs detect oc = .warnFallback oc := by
  unfold readConfigFile
  rcases h with h | h
  · rw [h, if_pos rfl]
  · by_cases h2 : fs.workflowsDirExists = false
    · rw [h2, if_pos rfl]
    · rw [if_neg h2, h]
      rfl

/-- C3 witness: a missing directory, and a directory with no matching
file, both return the override argument (respectively `none`) unchanged. -/
theorem C3_degraded_fallback_witness :
    readConfigFile "/proj" ⟨false, [], fun _ => false, fun _ => Yaml.null⟩ detectNode none =
      .warnFallback none ∧
    readConfigFile "/proj" ⟨true, ["readme.md"], fun _ => false, fun _ => Yaml.null⟩ detectNode
        (some { appLocation := some "x" }) =
      .warnFallback (some { appLocation := some "x" }) :=
  ⟨C3_degraded_fallback _ _ _ _ (Or.inl rfl),
   C3_degraded_fallback _ _ _ _ (Or.inr rfl)⟩

/-- C9: the `fs.existsSync` guard of line 129 tests the BARE filename of
the selected workflow file against the working directory; whenever an
entry of that name exists there, the descriptor is ignored and the
resolver degrades to returning the override record (or `undefined`),
despite a matching descriptor having been found. -/
theorem C9_bare_name_shadow (cwd : String) (fs : FsState) (detect : String → RuntimeType)
    (oc : Option PartialSWAConfig) (f : String)
    (h1 : fs.workflowsDirExists = true) (h2 : locateActionFile fs = some f)
    (h3 : fs.cwdFileExists f = true) :
    readConfigFile cwd fs detect oc = .warnFallback oc := by
  unfold readConfigFile
  rw [h1, if_neg (by simp), h2]
  show (if fs.cwdFileExists f = true then ConfigResult.warnFallback oc else _) = _
  rw [h3, if_pos rfl]

/-- C9 witness: a filesystem state where the descriptor is found but a
working-directory entry carries the same bare name. -/
theorem C9_bare_name_shadow_witness :
    readConfigFile "/proj"
      ⟨true, ["azure-static-web-apps-test.yml"],
        fun g => g == "azure-static-web-apps-test.yml", fun _ => sampleDoc⟩
      detectNode none = .warnFallback none :=
  C9_bare_name_shadow _ _ _ _ "azure-static-web-apps-test.yml" rfl rfl rfl

/-- C1 (amended): for every filesystem state whose descriptor validates to
a `with` block of exactly `{ app_location: "client", api_location:
"server" }`, with working directory `/proj`, no overrides and a non-.NET
runtime classification of the app root, `readConfigFile` returns both
build commands defaulted, `appLocation = "/proj/client"`, `apiLocation =
"/proj/server"` and `appArtifactLocation = "/proj/client/"` — with a
trailing separator, since the defaulted artifact location `/` is joined
onto the app location. -/
theorem C1_scenario (fs : FsState) (f : String) (w : Yaml) (detect : String → RuntimeType)
    (h1 : fs.workflowsDirExists = true) (h2 : locateActionFile fs = some f)
    (h3 : fs.cwdFileExists f = false)
    (h4 : validateDoc (resolvedActionFile "/proj" f)
      (fs.parseFile (resolvedActionFile "/proj" f)) = .ok w)
    (h5 : jsGet w "app_location" = some (.str "client"))
    (h6 : jsGet w "api_location" = some (.str "server"))
    (h7 : jsGet w "app_build_command" = none)
    (h8 : jsGet w "api_build_command" = none)
    (h9 : jsGet w "app_artifact_location" = none)
    (hd : detect "/proj/client" ≠ RuntimeType.dotnet) :
    readConfigFile "/proj" fs detect none =
      .ok { appBuildCommand := .str "npm run build --if-present"
            apiBuildCommand := .str "npm run build --if-present"
            appLocation := "/proj/client"
            apiLocation := "/proj/server"
            appArtifactLocation := "/proj/client/" } := by
  have hA : (extractWith w).app_location = some "client" := by
    simp [extractWith, withStr, h5]
  have hB : (extractWith w).app_artifact_location = some pathSep := by
    simp [extractWith, withStr, h9]
  have hC : (extractWith w).api_location = some "server" := by
    simp [extractWith, withStrApi, h6]
  have hab : (extractWith w).app_build_command = .str "npm run build --if-present" := by
    simp [extractWith, withVal, h7]
  have hab2 : (extractWith w).api_build_command = .str "npm run build --if-present" := by
    simp [extractWith, withVal, h8]
  rw [readConfigFile_located h1 h2 h3, parseStage_ok h4, resolveConfig_eq hA hB hC,
    hab, hab2]
  have e1 : normalize (joinList ["/proj", "client"]) = "/proj/client" := rfl
  rw [e1]
  have e2 : runtimeArtifactPath detect "/proj/client" (normalize pathSep) =
      joinList ["/proj/client", normalize pathSep] := by
    unfold runtimeArtifactPath
    rw [if_neg hd]
  rw [e2]
  rfl

/-- C1 witness: the concrete scenario filesystem. -/
theorem C1_scenario_witness :
    readConfigFile "/proj" (mkFs sampleDoc) detectNode none =
      .ok { appBuildCommand := .str "npm run build --if-present"
            apiBuildCommand := .str "npm run build --if-present"
            appLocation := "/proj/client"
            apiLocation := "/proj/server"
            appArtifactLocation := "/proj/client/" } :=
  C1_scenario (mkFs sampleDoc) "azure-static-web-apps-test.yml" sampleWith detectNode
    rfl rfl rfl rfl rfl rfl rfl rfl rfl (by decide)

/-- C1 counterexample: at the concrete scenario filesystem the returned
`appArtifactLocation` is `"/proj/client/"`, not the claimed
`"/proj/client"`. -/
theorem C1_claimed_artifact_refuted :
    readConfigFile "/proj" (mkFs sampleDoc) detectNode none =
      .ok { appBuildCommand := .str "npm run build --if-present"
            apiBuildCommand := .str "npm run build --if-present"
            appLocation := "/proj/client"
            apiLocation := "/proj/server"
            appArtifactLocation := "/proj/client/" } ∧
    ("/proj/client/" : String) ≠ "/proj/client" :=
  ⟨rfl, by decide⟩

/-- A truthy (nonempty) override value replaces the current value. -/
theorem applyOverride_truthy {cwd cur s : String} (hne : s ≠ "") :
    applyOverride cwd cur (some s) = normalize (joinList [cwd, s]) := by
  have e : applyOverride cwd cur (some s) =
      if s = "" then cur else normalize (joinList [cwd, s]) := rfl
  rw [e, if_neg hne]

/-- C2: whenever the override record defines `appLocation`, `apiLocation`
or `appArtifactLocation` as a nonempty value, the corresponding field of
any configuration `readConfigFile` returns equals
`normalize (join cwd value)` — it replaces the descriptor-derived,
runtime-resolved value, for every descriptor content. -/
theorem C2_override_replaces (cwd : String) (fs : FsState) (detect : String → RuntimeType)
    (oc : PartialSWAConfig) (cfg : GithubActionSWAConfig)
    (hok : readConfigFile cwd fs detect (some oc) = .ok cfg) :
    (∀ s, oc.appLocation = some s → s ≠ "" →
      cfg.appLocation = normalize (joinList [cwd, s])) ∧
    (∀ s, oc.apiLocation = some s → s ≠ "" →
      cfg.apiLocation = normalize (joinList [cwd, s])) ∧
    (∀ s, oc.appArtifactLocation = some s → s ≠ "" →
      cfg.appArtifactLocation = normalize (joinList [cwd, s])) := by
  obtain ⟨f, w, _, _, _, _, h5⟩ := readConfigFile_ok_inv hok
  obtain ⟨a0, b0, c0, _, _, _, rfl⟩ := resolveConfig_ok_inv h5
  refine ⟨?_, ?_, ?_⟩
  · intro s hs hne
    dsimp only
    rw [show (some oc).bind PartialSWAConfig.appLocation = oc.appLocation from rfl, hs]
    exact applyOverride_truthy hne
  · intro s hs hne
    dsimp only
    rw [show (some oc).bind PartialSWAConfig.apiLocation = oc.apiLocation from rfl, hs]
    exact applyOverride_truthy hne
  · intro s hs hne
    dsimp only
    rw [show (some oc).bind PartialSWAConfig.appArtifactLocation = oc.appArtifactLocation from rfl,
      hs]
    exact applyOverride_truthy hne

/-- C2 witness: a filesystem with the scenario descriptor and an override
record setting all three path fields. -/
theorem C2_override_replaces_witness :
    (({ appBuildCommand := .str "npm run build --if-present"
        apiBuildCommand := .str "npm run build --if-present"
        appLocation := "/proj/over"
        apiLocation := "/proj/ov2"
        appArtifactLocation := "/proj/ov3" } : GithubActionSWAConfig).appLocation =
      normalize (joinList ["/proj", "over"])) ∧
    (({ appBuildCommand := .str "npm run build --if-present"
        apiBuildCommand := .str "npm run build --if-present"
        appLocation := "/proj/over"
        apiLocation := "/proj/ov2"
        appArtifactLocation := "/proj/ov3" } : GithubActionSWAConfig).apiLocation =
      normalize (joinList ["/proj", "ov2"])) ∧
    (({ appBuildCommand := .str "npm run build --if-present"
        apiBuildCommand := .str "npm run build --if-present"
        appLocation := "/proj/over"
        apiLocation := "/proj/ov2"
        appArtifactLocation := "/proj/ov3" } : GithubActionSWAConfig).appArtifactLocation =
      normalize (joinList ["/proj", "ov3"])) := by
  have h := C2_override_replaces "/proj" (mkFs sampleDoc) detectNode
    { appLocation := some "over", apiLocation := some "ov2", appArtifactLocation := some "ov3" }
    { appBuildCommand := .str "npm run build --if-present"
      apiBuildCommand := .str "npm run build --if-present"
      appLocation := "/proj/over"
      apiLocation := "/proj/ov2"
      appArtifactLocation := "/proj/ov3" } rfl
  exact ⟨h.1 "over" rfl (by decide), h.2.1 "ov2" rfl (by decide),
    h.2.2 "ov3" rfl (by decide)⟩

/-- C10: the override merge never touches the build commands: whatever the
override record contains (its type admits `appBuildCommand` and
`apiBuildCommand` fields), the returned commands are exactly the
descriptor-derived or defaulted values of the validated `with` block. -/
theorem C10_commands_not_overridable (cwd : String) (fs : FsState)
    (detect : String → RuntimeType) (oc : Option PartialSWAConfig) (f : String) (w : Yaml)
    (cfg : GithubActionSWAConfig)
    (h2 : locateActionFile fs = some f)
    (h4 : validateDoc (resolvedActionFile cwd f)
      (fs.parseFile (resolvedActionFile cwd f)) = .ok w)
    (hok : readConfigFile cwd fs detect oc = .ok cfg) :
    cfg.appBuildCommand = (extractWith w).app_build_command ∧
    cfg.apiBuildCommand = (extractWith w).api_build_command := by
  obtain ⟨f2, w2, hh1, hh2, hh3, hh4, hh5⟩ := readConfigFile_ok_inv hok
  rw [h2] at hh2
  injection hh2 with hf
  subst hf
  rw [h4] at hh4
  injection hh4 with hw
  subst hw
  obtain ⟨a0, b0, c0, _, _, _, rfl⟩ := resolveConfig_ok_inv hh5
  exact ⟨rfl, rfl⟩

/-- C10 witness: an override record that sets both build-command fields
still leaves the returned commands at the descriptor defaults. -/
theorem C10_commands_witness :
    ({ appBuildCommand := .str "npm run build --if-present"
       apiBuildCommand := .str "npm run build --if-present"
       appLocation := "/proj/client"
       apiLocation := "/proj/server"
       appArtifactLocation := "/proj/client/" } : GithubActionSWAConfig).appBuildCommand =
      (extractWith sampleWith).app_build_command ∧
    ({ appBuildCommand := .str "npm run build --if-present"
       apiBuildCommand := .str "npm run build --if-present"
       appLocation := "/proj/client"
       apiLocation := "/proj/server"
       appArtifactLocation := "/proj/client/" } : GithubActionSWAConfig).apiBuildCommand =
      (extractWith sampleWith).api_build_command :=
  C10_commands_not_overridable "/proj" (mkFs sampleDoc) detectNode
    (some { appBuildCommand := some "evil build", apiBuildCommand := some "evil api" })
    "azure-static-web-apps-test.yml" sampleWith _ rfl rfl rfl

/-- C4: destructuring the `with` block substitutes exactly the documented
defaults for absent fields — the standard build-if-present invocation for
both commands, the path separator for app and artifact locations, the
literal `"api"` for the api location — and present values pass through
with no default substituted. -/
theorem C4_with_defaults (w : Yaml) :
    (jsGet w "app_build_command" = none →
      (extractWith w).app_build_command = .str "npm run build --if-present") ∧
    (jsGet w "api_build_command" = none →
      (extractWith w).api_build_command = .str "npm run build --if-present") ∧
    (jsGet w "app_location" = none → (extractWith w).app_location = some pathSep) ∧
    (jsGet w "app_artifact_location" = none →
      (extractWith w).app_artifact_location = some pathSep) ∧
    (jsGet w "api_location" = none → (extractWith w).api_location = some "api") ∧
    (∀ v, jsGet w "app_build_command" = some v →
      (extractWith w).app_build_command = v) ∧
    (∀ v, jsGet w "api_build_command" = some v →
      (extractWith w).api_build_command = v) ∧
    (∀ s, jsGet w "app_location" = some (.str s) →
      (extractWith w).app_location = some s) ∧
    (∀ s, jsGet w "app_artifact_location" = some (.str s) →
      (extractWith w).app_artifact_location = some s) ∧
    (∀ s, jsGet w "api_location" = some (.str s) →
      (extractWith w).api_location = some s) := by
  refine ⟨?_, ?_, ?_, ?_, ?_, ?_, ?_, ?_, ?_, ?_⟩
  · intro h; simp [extractWith, withVal, h]
  · intro h; simp [extractWith, withVal, h]
  · intro h; simp [extractWith, withStr, h]
  · intro h; simp [extractWith, withStr, h]
  · intro h; simp [extractWith, withStrApi, h]
  · intro v h; simp [extractWith, withVal, h]
  · intro v h; simp [extractWith, withVal, h]
  · intro s h; simp [extractWith, withStr, h]
  · intro s h; simp [extractWith, withStr, h]
  · intro s h; simp [extractWith, withStrApi, h]

/-- C4 witness: the empty `with` block takes all five defaults; the
scenario block passes its two present values through. -/
theorem C4_with_defaults_witness :
    (extractWith (Yaml.map [])).app_build_command = .str "npm run build --if-present" ∧
    (extractWith (Yaml.map [])).api_build_command = .str "npm run build --if-present" ∧
    (extractWith (Yaml.map [])).app_location = some pathSep ∧
    (extractWith (Yaml.map [])).app_artifact_location = some pathSep ∧
    (extractWith (Yaml.map [])).api_location = some "api" ∧
    (extractWith sampleWith).app_location = some "client" ∧
    (extractWith sampleWith).api_location = some "server" :=
  ⟨(C4_with_defaults (Yaml.map [])).1 rfl,
   (C4_with_defaults (Yaml.map [])).2.1 rfl,
   (C4_with_defaults (Yaml.map [])).2.2.1 rfl,
   (C4_with_defaults (Yaml.map [])).2.2.2.1 rfl,
   (C4_with_defaults (Yaml.map [])).2.2.2.2.1 rfl,
   (C4_with_defaults sampleWith).2.2.2.2.2.2.2.1 "client" rfl,
   (C4_with_defaults sampleWith).2.2.2.2.2.2.2.2.2 "server" rfl⟩

/-- C5: a .NET classification of the app root inserts the fixed
`bin/Debug/netstandard2.1/publish` segment between the app location and
the (still relative, possibly defaulted) artifact location; any other
classification joins the artifact location directly — and without
overrides this is exactly the returned `appArtifactLocation`. -/
theorem C5_runtime_artifact (detect : String → RuntimeType) (app art : String) :
    (detect app = RuntimeType.dotnet →
      runtimeArtifactPath detect app art =
        joinList [app, "bin", "Debug", "netstandard2.1", "publish", art]) ∧
    (detect app ≠ RuntimeType.dotnet →
      runtimeArtifactPath detect app art = joinList [app, art]) ∧
    (∀ (cwd : String) (w : Yaml) (cfg : GithubActionSWAConfig) (appLoc0 art0 : String),
      (extractWith w).app_location = some appLoc0 →
      (extractWith w).app_artifact_location = some art0 →
      resolveConfig cwd detect none w = .ok cfg →
      cfg.appArtifactLocation =
        runtimeArtifactPath detect (normalize (joinList [cwd, appLoc0]))
          (normalize art0)) := by
  refine ⟨?_, ?_, ?_⟩
  · intro h
    unfold runtimeArtifactPath
    rw [if_pos h]
  · intro h
    unfold runtimeArtifactPath
    rw [if_neg h]
  · intro cwd w cfg a0 b0 hA hB hok
    obtain ⟨a1, b1, c1, hA1, hB1, hC1, rfl⟩ := resolveConfig_ok_inv hok
    rw [hA] at hA1
    injection hA1 with e1
    subst e1
    rw [hB] at hB1
    injection hB1 with e2
    subst e2
    rfl

/-- C5 witness: both classifications at a concrete app root and artifact
suffix. -/
theorem C5_runtime_artifact_witness :
    runtimeArtifactPath detectDotnet "/a" "x" = "/a/bin/Debug/netstandard2.1/publish/x" ∧
    runtimeArtifactPath detectNode "/a" "x" = "/a/x" :=
  ⟨((C5_runtime_artifact detectDotnet "/a" "x").1 rfl).trans (by decide),
   ((C5_runtime_artifact detectNode "/a" "x").2.1 (by decide)).trans (by decide)⟩

/-- C6 (amended): after a successful parse (a truthy document), the
structural checks run in the fixed order `jobs` →
`jobs.build_and_deploy_job` → `steps` → deploy-marker step → `with`; each
failing check produces the distinct fatal message naming exactly that
structural path (the five messages are pairwise different), and every
validation error halts `readConfigFile` with exactly that thrown error —
no partial configuration. The deploy-marker and `with` checks presuppose
that the step search itself completes: a `null` step or a step with a
truthy non-string `uses` ahead of the first match instead makes the find
callback throw a `TypeError` that does not name a structural path (and
that error, too, halts validation immediately). -/
theorem C6_validation_order (file : String) (doc : Yaml) :
    (truthyY doc = true → truthyO (docJobs doc) = false →
      validateDoc file doc = .error (missingPropMsg "jobs" file)) ∧
    (truthyY doc = true → truthyO (docJobs doc) = true →
      truthyO (docBuildJob doc) = false →
      validateDoc file doc = .error (missingPropMsg "jobs.build_and_deploy_job" file)) ∧
    (truthyY doc = true → truthyO (docJobs doc) = true →
      truthyO (docBuildJob doc) = true → truthyO (docSteps doc) = false →
      validateDoc file doc = .error (missingPropMsg "jobs.build_and_deploy_job.steps" file)) ∧
    (∀ steps, truthyY doc = true → truthyO (docJobs doc) = true →
      truthyO (docBuildJob doc) = true → docSteps doc = some (.seq steps) →
      findDeployStep steps = .ok none →
      validateDoc file doc = .error (invalidStepsMsg file)) ∧
    (∀ steps st, truthyY doc = true → truthyO (docJobs doc) = true →
      truthyO (docBuildJob doc) = true → docSteps doc = some (.seq steps) →
      findDeployStep steps = .ok (some st) → truthyO (jsGet st "with") = false →
      validateDoc file doc =
        .error (missingPropMsg "jobs.build_and_deploy_job.steps[].with" file)) ∧
    (∀ steps m, truthyY doc = true → truthyO (docJobs doc) = true →
      truthyO (docBuildJob doc) = true → docSteps doc = some (.seq steps) →
      findDeployStep steps = .error m →
      validateDoc file doc = .error m) ∧
    List.Pairwise (· ≠ ·)
      [missingPropMsg "jobs" file, missingPropMsg "jobs.build_and_deploy_job" file,
       missingPropMsg "jobs.build_and_deploy_job.steps" file, invalidStepsMsg file,
       missingPropMsg "jobs.build_and_deploy_job.steps[].with" file] ∧
    (∀ (cwd : String) (fs : FsState) (detect : String → RuntimeType)
      (oc : Option PartialSWAConfig) (f m : String),
      fs.workflowsDirExists = true → locateActionFile fs = some f →
      fs.cwdFileExists f = false →
      validateDoc (resolvedActionFile cwd f)
        (fs.parseFile (resolvedActionFile cwd f)) = .error m →
      readConfigFile cwd fs detect oc = .err m) := by
  have p1 : missingPropMsg "jobs" file =
      "missing property \x27jobs\x27" ++ swaSuffix file :=
    congrArg (· ++ swaSuffix file) (by decide)
  have p2 : missingPropMsg "jobs.build_and_deploy_job" file =
      "missing property \x27jobs.build_and_deploy_job\x27" ++ swaSuffix file :=
    congrArg (· ++ swaSuffix file) (by decide)
  have p3 : missingPropMsg "jobs.build_and_deploy_job.steps" file =
      "missing property \x27jobs.build_and_deploy_job.steps\x27" ++ swaSuffix file :=
    congrArg (· ++ swaSuffix file) (by decide)
  have p4 : invalidStepsMsg file =
      "invalid property \x27jobs.build_and_deploy_job.steps[]\x27" ++ swaSuffix file := rfl
  have p5 : missingPropMsg "jobs.build_and_deploy_job.steps[].with" file =
      "missing property \x27jobs.build_and_deploy_job.steps[].with\x27" ++ swaSuffix file :=
    congrArg (· ++ swaSuffix file) (by decide)
  refine ⟨?_, ?_, ?_, ?_, ?_, ?_, ?_, ?_⟩
  · intro h0 h1
    exact validateDoc_missing_jobs h0 h1
  · intro h0 h1 h2
    exact validateDoc_missing_bj h0 h1 h2
  · intro h0 h1 h2 h3
    exact validateDoc_missing_steps h0 h1 h2 h3
  · intro steps h0 h1 h2 h3 hf
    rw [validateDoc_steps h0 h1 h2 h3, hf]
  · intro steps st h0 h1 h2 h3 hf h6
    rw [validateDoc_steps h0 h1 h2 h3, hf]
    show (if truthyO (jsGet st "with") = false then _ else _) = _
    rw [h6, if_pos rfl]
  · intro steps m h0 h1 h2 h3 hferr
    rw [validateDoc_steps h0 h1 h2 h3, hferr]
  · rw [p1, p2, p3, p4, p5]
    refine List.Pairwise.cons ?_ (List.Pairwise.cons ?_ (List.Pairwise.cons ?_
      (List.Pairwise.cons ?_ (List.pairwise_singleton _ _))))
    all_goals
      intro b hb
      simp only [List.mem_cons, List.not_mem_nil, or_false] at hb
    · rcases hb with rfl | rfl | rfl | rfl <;> exact append_suffix_ne _ (by decide)
    · rcases hb with rfl | rfl | rfl <;> exact append_suffix_ne _ (by decide)
    · rcases hb with rfl | rfl <;> exact append_suffix_ne _ (by decide)
    · rcases hb with rfl
      exact append_suffix_ne _ (by decide)
  · intro cwd fs detect oc f m k1 k2 k3 k4
    rw [readConfigFile_located k1 k2 k3, parseStage_error k4]

/-- C6 witness: each structural failure at a concrete document, the
TypeError of an object-valued `uses`, and the halt of `readConfigFile` on
a validation error. -/
theorem C6_validation_order_witness :
    validateDoc "F" (Yaml.map []) = .error (missingPropMsg "jobs" "F") ∧
    validateDoc "F" (Yaml.map [("jobs", Yaml.map [])]) =
      .error (missingPropMsg "jobs.build_and_deploy_job" "F") ∧
    validateDoc "F" (Yaml.map [("jobs", Yaml.map [("build_and_deploy_job", Yaml.map [])])]) =
      .error (missingPropMsg "jobs.build_and_deploy_job.steps" "F") ∧
    validateDoc "F" noDeployDoc = .error (invalidStepsMsg "F") ∧
    validateDoc "F" noWithDoc =
      .error (missingPropMsg "jobs.build_and_deploy_job.steps[].with" "F") ∧
    validateDoc "F" objUsesDoc = .error findIncludesMsg ∧
    readConfigFile "/proj" (mkFs noDeployDoc) detectNode none =
      .err (invalidStepsMsg "/proj/.github/workflows/azure-static-web-apps-test.yml") :=
  ⟨(C6_validation_order "F" (Yaml.map [])).1 rfl rfl,
   (C6_validation_order "F" (Yaml.map [("jobs", Yaml.map [])])).2.1 rfl rfl rfl,
   (C6_validation_order "F"
     (Yaml.map [("jobs", Yaml.map [("build_and_deploy_job", Yaml.map [])])])).2.2.1
     rfl rfl rfl rfl,
   (C6_validation_order "F" noDeployDoc).2.2.2.1
     [Yaml.map [("uses", Yaml.str "actions/checkout@v2")]] rfl rfl rfl rfl rfl,
   (C6_validation_order "F" noWithDoc).2.2.2.2.1
     [Yaml.map [("uses", Yaml.str "Azure/static-web-apps-deploy@v0.0.1-preview")]]
     (Yaml.map [("uses", Yaml.str "Azure/static-web-apps-deploy@v0.0.1-preview")])
     rfl rfl rfl rfl rfl rfl,
   (C6_validation_order "F" objUsesDoc).2.2.2.2.2.1
     [Yaml.map [("uses", Yaml.map [("foo", Yaml.str "bar")])]] findIncludesMsg
     rfl rfl rfl rfl rfl,
   (C6_validation_order "/proj/.github/workflows/azure-static-web-apps-test.yml"
     noDeployDoc).2.2.2.2.2.2.2 "/proj" (mkFs noDeployDoc) detectNode none
     "azure-static-web-apps-test.yml" _ rfl rfl rfl rfl⟩

/-- C6 counterexample: a descriptor whose steps hold a step with a
mapping-valued `uses` fails the deploy-marker stage with the engine's
TypeError — not with a fatal error naming the missing or invalid
structural path, as the claim states for every failing check. -/
theorem C6_typeerror_refuted :
    validateDoc "F" objUsesDoc = .error findIncludesMsg ∧
    readConfigFile "/proj" (mkFs objUsesDoc) detectNode none = .err findIncludesMsg ∧
    findIncludesMsg ≠ invalidStepsMsg "F" ∧
    findIncludesMsg ≠ missingPropMsg "jobs.build_and_deploy_job.steps[].with" "F" :=
  ⟨rfl, rfl, by decide, by decide⟩

/-- C7 (amended): when the deploy-step search over the parsed descriptor's
`steps` completes without a JavaScript TypeError and accepts no step
(`findDeployStep steps = .ok none`: every step's `uses` lacks the deploy
marker, none is null and none has a truthy non-string `uses`), resolution
fails — but the thrown message is not the literal
`"no matching deploy step"`; it is the invalid-property message that
starts with `invalid property 'jobs.build_and_deploy_job.steps[]'` and
names the descriptor file. (A step list that makes the callback throw
fails with the engine's TypeError instead.) -/
theorem C7_no_deploy_marker (cwd : String) (fs : FsState) (detect : String → RuntimeType)
    (oc : Option PartialSWAConfig) (f : String) (steps : List Yaml)
    (h1 : fs.workflowsDirExists = true) (h2 : locateActionFile fs = some f)
    (h3 : fs.cwdFileExists f = false)
    (h0 : truthyY (fs.parseFile (resolvedActionFile cwd f)) = true)
    (hj : truthyO (docJobs (fs.parseFile (resolvedActionFile cwd f))) = true)
    (hb : truthyO (docBuildJob (fs.parseFile (resolvedActionFile cwd f))) = true)
    (hs : docSteps (fs.parseFile (resolvedActionFile cwd f)) = some (.seq steps))
    (hf : findDeployStep steps = .ok none) :
    readConfigFile cwd fs detect oc = .err (invalidStepsMsg (resolvedActionFile cwd f)) ∧
    strStartsWith (invalidStepsMsg (resolvedActionFile cwd f))
      "invalid property \x27jobs.build_and_deploy_job.steps[]\x27" = true := by
  constructor
  · rw [readConfigFile_located h1 h2 h3]
    have hv : validateDoc (resolvedActionFile cwd f)
        (fs.parseFile (resolvedActionFile cwd f)) =
        .error (invalidStepsMsg (resolvedActionFile cwd f)) := by
      rw [validateDoc_steps h0 hj hb hs, hf]
    exact parseStage_error hv
  · have e : invalidStepsMsg (resolvedActionFile cwd f) =
        "invalid property \x27jobs.build_and_deploy_job.steps[]\x27" ++
          swaSuffix (resolvedActionFile cwd f) := rfl
    rw [e]
    exact strStartsWith_append _ _

/-- C7 witness: the concrete no-deploy-step filesystem. -/
theorem C7_no_deploy_marker_witness :
    readConfigFile "/proj" (mkFs noDeployDoc) detectNode none =
      .err (invalidStepsMsg "/proj/.github/workflows/azure-static-web-apps-test.yml") ∧
    strStartsWith (invalidStepsMsg "/proj/.github/workflows/azure-static-web-apps-test.yml")
      "invalid property \x27jobs.build_and_deploy_job.steps[]\x27" = true :=
  C7_no_deploy_marker "/proj" (mkFs noDeployDoc) detectNode none
    "azure-static-web-apps-test.yml" [Yaml.map [("uses", Yaml.str "actions/checkout@v2")]]
    rfl rfl rfl rfl rfl rfl rfl rfl

/-- C7 counterexample: at a concrete no-deploy-step filesystem the thrown
message differs from the claimed literal `"no matching deploy step"`. -/
theorem C7_message_refuted :
    readConfigFile "/proj" (mkFs noDeployDoc) detectNode none =
      .err (invalidStepsMsg "/proj/.github/workflows/azure-static-web-apps-test.yml") ∧
    invalidStepsMsg "/proj/.github/workflows/azure-static-web-apps-test.yml" ≠
      "no matching deploy step" :=
  ⟨rfl, by decide⟩

/-- C8: every configuration record `readConfigFile` returns (under an
absolute working directory) has its three path fields absolute and
normalized. -/
theorem C8_paths_absolute_normalized (cwd : String) (fs : FsState)
    (detect : String → RuntimeType) (oc : Option PartialSWAConfig)
    (cfg : GithubActionSWAConfig)
    (habs : isAbsolute cwd = true)
    (hok : readConfigFile cwd fs detect oc = .ok cfg) :
    (isAbsolute cfg.appLocation = true ∧ normalize cfg.appLocation = cfg.appLocation) ∧
    (isAbsolute cfg.apiLocation = true ∧ normalize cfg.apiLocation = cfg.apiLocation) ∧
    (isAbsolute cfg.appArtifactLocation = true ∧
      normalize cfg.appArtifactLocation = cfg.appArtifactLocation) := by
  obtain ⟨f, w, _, _, _, _, h5⟩ := readConfigFile_ok_inv hok
  obtain ⟨a0, b0, c0, _, _, _, rfl⟩ := resolveConfig_ok_inv h5
  refine ⟨?_, ?_, ?_⟩
  · exact applyOverride_absNorm _ habs (normalize_joinList_cons_abs _ habs)
  · exact applyOverride_absNorm _ habs (normalize_joinList_cons_abs _ habs)
  · exact applyOverride_absNorm _ habs
      (runtimeArtifactPath_absNorm detect _ (normalize_joinList_cons_abs [a0] habs).1)

/-- C8 witness: the scenario configuration has absolute, normalized
paths. -/
theorem C8_paths_witness :
    (isAbsolute ({ appBuildCommand := .str "npm run build --if-present"
                   apiBuildCommand := .str "npm run build --if-present"
                   appLocation := "/proj/client"
                   apiLocation := "/proj/server"
                   appArtifactLocation := "/proj/client/" } :
        GithubActionSWAConfig).appLocation = true ∧
      normalize ({ appBuildCommand := .str "npm run build --if-present"
                   apiBuildCommand := .str "npm run build --if-present"
                   appLocation := "/proj/client"
                   apiLocation := "/proj/server"
                   appArtifactLocation := "/proj/client/" } :
        GithubActionSWAConfig).appLocation =
        ({ appBuildCommand := .str "npm run build --if-present"
           apiBuildCommand := .str "npm run build --if-present"
           appLocation := "/proj/client"
           apiLocation := "/proj/server"
           appArtifactLocation := "/proj/client/" } :
          GithubActionSWAConfig).appLocation) ∧
    (isAbsolute ({ appBuildCommand := .str "npm run build --if-present"
                   apiBuildCommand := .str "npm run build --if-present"
                   appLocation := "/proj/client"
                   apiLocation := "/proj/server"
                   appArtifactLocation := "/proj/client/" } :
        GithubActionSWAConfig).apiLocation = true ∧
      normalize ({ appBuildCommand := .str "npm run build --if-present"
                   apiBuildCommand := .str "npm run build --if-present"
                   appLocation := "/proj/client"
                   apiLocation := "/proj/server"
                   appArtifactLocation := "/proj/client/" } :
        GithubActionSWAConfig).apiLocation =
        ({ appBuildCommand := .str "npm run build --if-present"
           apiBuildCommand := .str "npm run build --if-present"
           appLocation := "/proj/client"
           apiLocation := "/proj/server"
           appArtifactLocation := "/proj/client/" } :
          GithubActionSWAConfig).apiLocation) ∧
    (isAbsolute ({ appBuildCommand := .str "npm run build --if-present"
                   apiBuildCommand := .str "npm run build --if-present"
                   appLocation := "/proj/client"
                   apiLocation := "/proj/server"
                   appArtifactLocation := "/proj/client/" } :
        GithubActionSWAConfig).appArtifactLocation = true ∧
      normalize ({ appBuildCommand := .str "npm run build --if-present"
                   apiBuildCommand := .str "npm run build --if-present"
                   appLocation := "/proj/client"
                   apiLocation := "/proj/server"
                   appArtifactLocation := "/proj/client/" } :
        GithubActionSWAConfig).appArtifactLocation =
        ({ appBuildCommand := .str "npm run build --if-present"
           apiBuildCommand := .str "npm run build --if-present"
           appLocation := "/proj/client"
           apiLocation := "/proj/server"
           appArtifactLocation := "/proj/client/" } :
          GithubActionSWAConfig).appArtifactLocation) :=
  C8_paths_absolute_normalized "/proj" (mkFs sampleDoc) detectNode none _ rfl rfl

end Swa
